import Mathlib

/-!
Verification of the result-assembly and output-routing logic of
`src/mistral_pdf_ocr.py` (class `MistralOCR`).

Strings are modelled as `List Char` (`Str`); Python's `str.replace`,
`"\n\n".join`, `pathlib` stem/suffix manipulation and the per-file
processing flow are embedded as executable Lean functions below,
translated directly from the Python source.
-/

namespace MistralPdfOcr

/-- Python strings, modelled as lists of characters. -/
abbrev Str := List Char

/-- The blank-line separator `"\n\n"` used by `"\n\n".join(...)`. -/
def nl2 : Str := "\n\n".data

/-- Python `sep.join(xs)`: the segments of `xs` concatenated with one copy
of `sep` between each pair of consecutive segments. -/
def joinSep (sep : Str) : List Str → Str
  | [] => []
  | [x] => x
  | x :: y :: rest => x ++ sep ++ joinSep sep (y :: rest)

/-- A second formulation of joining, following the spec's words: the first
segment, then every later segment preceded by exactly one separator. -/
def specJoin (sep : Str) : List Str → Str
  | [] => []
  | x :: rest => x ++ (rest.map (fun r => sep ++ r)).flatten

/-- Python `s.replace(pat, rep)` for a nonempty `pat`: scan left to right,
replacing each (non-overlapping, leftmost-first) occurrence of `pat` by
`rep`.  (The Python source only ever calls `replace` with the nonempty
pattern `![id](id)`; for an empty `pat` this model is the identity.) -/
def listReplace (s pat rep : Str) : Str :=
  match s with
  | [] => []
  | c :: rest =>
    if h : pat ≠ [] ∧ (c :: rest).take pat.length = pat then
      rep ++ listReplace ((c :: rest).drop pat.length) pat rep
    else
      c :: listReplace rest pat rep
termination_by s.length
decreasing_by
  · simp only [List.length_drop, List.length_cons]
    cases pat with
    | nil => exact absurd rfl h.1
    | cons p pt => simp; omega
  · simp

/-- Does `pat` occur as a contiguous substring of `s`? -/
def hasMatch (pat : Str) (s : Str) : Bool :=
  match s with
  | [] => pat.isEmpty
  | c :: rest => ((c :: rest).take pat.length == pat) || hasMatch pat rest

/-- Number of (non-overlapping, leftmost-first) occurrences of `pat` in
`s`, counted the way `listReplace` finds them. -/
def countOcc (pat : Str) (s : Str) : Nat :=
  match s with
  | [] => 0
  | c :: rest =>
    if h : pat ≠ [] ∧ (c :: rest).take pat.length = pat then
      1 + countOcc pat ((c :: rest).drop pat.length)
    else
      countOcc pat rest
termination_by s.length
decreasing_by
  · simp only [List.length_drop, List.length_cons]
    cases pat with
    | nil => exact absurd rfl h.1
    | cons p pt => simp; omega
  · simp

/-- One embedded image of a page of the OCR response (`page.images[k]`). -/
structure OCRImage where
  id : Str
  image_base64 : Str
deriving DecidableEq

/-- One page record of the OCR response. -/
structure OCRPage where
  index : Int
  markdown : Str
  text : Str
  images : List OCRImage
deriving DecidableEq

/-- The OCR service response: an ordered sequence of page records. -/
structure OCRResponse where
  pages : List OCRPage
deriving DecidableEq

/-- The placeholder `![<id>](<id>)` that the service emits in a page's
markdown for the image named `id`. -/
def imgPlaceholder (id : Str) : Str :=
  "![".data ++ id ++ "](".data ++ id ++ ")".data

/-- The inline form `![<id>](<data>)` that replaces the placeholder. -/
def imgInline (id data : Str) : Str :=
  "![".data ++ id ++ "](".data ++ data ++ ")".data

/-- Python `dict` insertion: overwrite in place if the key exists,
otherwise append (insertion order is preserved, as in CPython). -/
def dictInsert (d : List (Str × Str)) (k v : Str) : List (Str × Str) :=
  if d.any (fun p => p.1 = k) then
    d.map (fun p => if p.1 = k then (k, v) else p)
  else
    d ++ [(k, v)]

/-- The per-page image map built by `_get_combined_markdown`:
`image_data[img.id] = img.image_base64` over the page's images in order. -/
def buildImageData (imgs : List OCRImage) : List (Str × Str) :=
  imgs.foldl (fun d img => dictInsert d img.id img.image_base64) []

/-- `MistralOCR._replace_images_in_markdown`: for each entry of the page's
image map (in insertion order), literally replace `![id](id)` by
`![id](base64)` in the accumulated markdown string. -/
def replace_images_in_markdown (markdown_str : Str) (images_dict : List (Str × Str)) : Str :=
  images_dict.foldl
    (fun md kv => listReplace md (imgPlaceholder kv.1) (imgInline kv.1 kv.2)) markdown_str

/-- The loop body of `_get_combined_markdown`: one page's transformed
markdown. -/
def transformPage (page : OCRPage) : Str :=
  replace_images_in_markdown page.markdown (buildImageData page.images)

/-- `MistralOCR._get_combined_markdown`: transform each page and join the
results with `"\n\n"`. -/
def get_combined_markdown (resp : OCRResponse) : Str :=
  joinSep nl2 (resp.pages.map transformPage)

/-- The `text` branch of `process_document`: `"\n\n".join` of every page's
plain-text field, in page order. -/
def text_mode_output (resp : OCRResponse) : Str :=
  joinSep nl2 (resp.pages.map OCRPage.text)

/-! ### JSON values

Modelled from the spec: `json.loads(response.json())` — the structured
JSON form of the service response, produced by the external client
library and the standard-library `json` module, neither of which is part
of this repository.  The `json` output branch of `process_document`
passes this structure through unchanged. -/

/-- A JSON value (objects keep their fields in order, as CPython dicts do). -/
inductive Json where
  | str (s : Str)
  | num (n : Int)
  | bool (b : Bool)
  | null
  | arr (xs : List Json)
  | obj (fields : List (Str × Json))

/-- The JSON form of one embedded image. -/
def imageToJson (img : OCRImage) : Json :=
  .obj [("id".data, .str img.id), ("image_base64".data, .str img.image_base64)]

/-- The JSON form of one page record. -/
def pageToJson (page : OCRPage) : Json :=
  .obj [("index".data, .num page.index),
        ("markdown".data, .str page.markdown),
        ("text".data, .str page.text),
        ("images".data, .arr (page.images.map imageToJson))]

/-- The JSON form of the whole structured response (`response_dict`). -/
def responseToJson (resp : OCRResponse) : Json :=
  .obj [("pages".data, .arr (resp.pages.map pageToJson))]

/-- Map a fallible decoder over a list, failing if any element fails. -/
def optMapList (g : Json → Option α) : List Json → Option (List α)
  | [] => some []
  | x :: xs =>
    match g x, optMapList g xs with
    | some a, some as => some (a :: as)
    | _, _ => none

/-- Modelled from the spec: decoding one image back out of its JSON form
(round-trip direction of the `json`-mode contract). -/
def jsonToImage : Json → Option OCRImage
  | .obj [(k1, .str i), (k2, .str b)] =>
    if k1 = "id".data ∧ k2 = "image_base64".data then some ⟨i, b⟩ else none
  | _ => none

/-- Modelled from the spec: decoding one page back out of its JSON form. -/
def jsonToPage : Json → Option OCRPage
  | .obj [(k1, .num idx), (k2, .str md), (k3, .str tx), (k4, .arr imgs)] =>
    if k1 = "index".data ∧ k2 = "markdown".data ∧ k3 = "text".data ∧ k4 = "images".data then
      match optMapList jsonToImage imgs with
      | some is => some ⟨idx, md, tx, is⟩
      | none => none
    else none
  | _ => none

/-- Modelled from the spec: decoding a structured response back out of its
JSON form. -/
def jsonToResponse : Json → Option OCRResponse
  | .obj [(k, .arr pages)] =>
    if k = "pages".data then
      match optMapList jsonToPage pages with
      | some ps => some ⟨ps⟩
      | none => none
    else none
  | _ => none

/-! ### File paths and the processing flow -/

/-- A file path, split as `pathlib` views it: the parent directory (kept
opaque) and the final component (`name`). -/
structure FPath where
  dir : Str
  name : Str
deriving DecidableEq

/-- Split `name` at its last dot: `some (a, b)` with `name = a ++ "." ++ b`
and no dot in `b`; `none` when `name` has no dot. -/
def splitLastDot : Str → Option (Str × Str)
  | [] => none
  | c :: rest =>
    match splitLastDot rest with
    | some (a, b) => some (c :: a, b)
    | none => if c = '.' then some ([], rest) else none

/-- `pathlib.PurePath.suffix` of a final component: the part from the last
dot on, but only when that dot is neither the first nor the last
character; otherwise the empty string. -/
def pySuffix (name : Str) : Str :=
  match splitLastDot name with
  | some (a, b) => if a ≠ [] ∧ b ≠ [] then '.' :: b else []
  | none => []

/-- `pathlib.PurePath.stem` of a final component. -/
def pyStem (name : Str) : Str :=
  match splitLastDot name with
  | some (a, b) => if a ≠ [] ∧ b ≠ [] then a else name
  | none => name

/-- `Path.with_stem(st)`: replace the stem, keep the suffix. -/
def withStem (p : FPath) (st : Str) : FPath :=
  ⟨p.dir, st ++ pySuffix p.name⟩

/-- `Path.with_suffix(suf)`: replace the suffix, keep the stem. -/
def withSuffix (p : FPath) (suf : Str) : FPath :=
  ⟨p.dir, pyStem p.name ++ suf⟩

/-- The path computed by `_save_markdown_file`:
`original_path.with_stem(f"{stem}_OCR").with_suffix(".md")`. -/
def save_markdown_path (p : FPath) : FPath :=
  withSuffix (withStem p (pyStem p.name ++ "_OCR".data)) ".md".data

/-- Lowercasing, as in `Path(file_path).suffix.lower()`. -/
def lowerStr (s : Str) : Str := s.map Char.toLower

/-- The extensions accepted by `process_document` and by the
`process_directory` listing filter. -/
def supportedExts : List Str :=
  [".pdf".data, ".png".data, ".jpg".data, ".jpeg".data]

/-- The outcome of the external OCR service call (upload + `ocr.process`),
which is outside this repository's boundary: success with a structured
response, a `mistralai` `SDKError`, or any other exception raised inside
the `try` block. -/
inductive ServiceOutcome where
  | ok (resp : OCRResponse)
  | sdkError (msg : Str)
  | otherError (msg : Str)

/-- The exceptions `process_document` / `process_directory` can raise to
their caller (they are raised outside any enclosing `try` in the source). -/
inductive PyErr where
  | fileNotFound
  | valueError
  | notADirectory
deriving DecidableEq

/-- The `output_format` argument. -/
inductive OutputFormat where
  | markdown
  | text
  | json
deriving DecidableEq

/-- The dictionary `process_document` returns: the raw structured response
(`json` mode), a content string with an optional recorded markdown file
path, or an error entry. -/
inductive DocResult where
  | jsonResult (j : Json)
  | content (text : Str) (markdown_path : Option FPath)
  | error (msg : Str)

/-- What gets written to a file: the raw text, or a `json.dump` of a
result dictionary (the serialization itself is the standard library's). -/
inductive WritePayload where
  | textData (s : Str)
  | jsonData (j : Json)

/-- One file write performed during processing. -/
abbrev Writes := List (FPath × WritePayload)

/-- `MistralOCR.process_document`, with the external service call
abstracted as a `ServiceOutcome`.  Faithful to the source's control flow:
the missing-file and unsupported-extension checks `raise` *before* the
`try` block, so they surface as exceptions (`Except.error`); failures of
the service call inside the `try` are caught and turned into an
error-dictionary result.  In `markdown` mode the combined markdown is
unconditionally written to the sibling `_OCR.md` file and its path is
recorded in the result.  (`generate_pdf` is `False` throughout, as in
every call made by `process_directory`.) -/
def process_document (file_exists : Bool) (p : FPath) (svc : ServiceOutcome)
    (fmt : OutputFormat) : Except PyErr (DocResult × Writes) :=
  if !file_exists then
    .error .fileNotFound
  else if !(supportedExts.contains (lowerStr (pySuffix p.name))) then
    .error .valueError
  else
    match svc with
    | .sdkError m => .ok (.error ("Mistral API error: ".data ++ m), [])
    | .otherError m => .ok (.error ("error while processing the document: ".data ++ m), [])
    | .ok resp =>
      match fmt with
      | .json => .ok (.jsonResult (responseToJson resp), [])
      | .markdown =>
        let content := get_combined_markdown resp
        let mdPath := save_markdown_path p
        .ok (.content content (some mdPath), [(mdPath, .textData content)])
      | .text => .ok (.content (text_mode_output resp) none, [])

/-- One entry of `os.listdir(directory_path)`: its name and whether
`os.path.isfile` holds for it. -/
structure DirEntry where
  name : Str
  isFile : Bool
deriving DecidableEq

/-- The listing filter of `process_directory`: regular files whose
lowercased suffix is one of the supported extensions. -/
def supportedEntry (e : DirEntry) : Bool :=
  e.isFile && supportedExts.contains (lowerStr (pySuffix e.name))

/-- `result.get('content', '')`. -/
def contentOf : DocResult → Str
  | .content c _ => c
  | _ => []

/-- The result dictionary as a JSON value, as `json.dump(result, f)`
would serialize it. -/
def resultJson : DocResult → Json
  | .jsonResult j => j
  | .content c mp =>
    .obj (("content".data, .str c) ::
      (match mp with
       | some q => [("markdown_path".data, .str (q.dir ++ "/".data ++ q.name))]
       | none => []))
  | .error m => .obj [("error".data, .str m)]

/-- The extra write `process_directory` performs for one file when an
output directory was given and the per-file result is not an error. -/
def outputWrites (outDir : Option Str) (fmt : OutputFormat) (name : Str) :
    DocResult → Writes
  | .error _ => []
  | res =>
    match outDir with
    | none => []
    | some d =>
      match fmt with
      | .markdown => [(⟨d, pyStem name ++ ".md".data⟩, .textData (contentOf res))]
      | .text => [(⟨d, pyStem name ++ ".txt".data⟩, .textData (contentOf res))]
      | .json => [(⟨d, pyStem name ++ ".json".data⟩, .jsonData (resultJson res))]

/-- The `for file_name in tqdm(pdf_files, ...)` loop of
`process_directory`: process each file in listing order, collect
`{"file": name, "result": result}` entries, and accumulate file writes.
A file in the listing passed `os.path.isfile`, so `process_document` is
called with `file_exists := true`; an exception it raises would propagate
out of the loop, which the `Except` monadic structure reflects. -/
def processEntries (dirPath : Str) (svc : Str → ServiceOutcome)
    (outDir : Option Str) (fmt : OutputFormat) :
    List DirEntry → Except PyErr (List (Str × DocResult) × Writes)
  | [] => .ok ([], [])
  | e :: rest =>
    match process_document true ⟨dirPath, e.name⟩ (svc e.name) fmt with
    | .error err => .error err
    | .ok (res, ws) =>
      match processEntries dirPath svc outDir fmt rest with
      | .error err => .error err
      | .ok (rs, ws2) =>
        .ok ((e.name, res) :: rs, ws ++ outputWrites outDir fmt e.name res ++ ws2)

/-- `MistralOCR.process_directory`: raise `NotADirectoryError` when the
path is not a directory, otherwise filter the listing down to supported
regular files and process them one at a time. -/
def process_directory (isDir : Bool) (dirPath : Str) (entries : List DirEntry)
    (svc : Str → ServiceOutcome) (outDir : Option Str) (fmt : OutputFormat) :
    Except PyErr (List (Str × DocResult) × Writes) :=
  if isDir then
    processEntries dirPath svc outDir fmt (entries.filter supportedEntry)
  else
    .error .notADirectory

/-- Is the batch call's result a normal return (no exception)? -/
def isOkE : Except PyErr (List (Str × DocResult) × Writes) → Bool
  | .ok _ => true
  | .error _ => false

/-- The list of per-file result entries of a batch call (empty when the
call raised). -/
def batchResults : Except PyErr (List (Str × DocResult) × Writes) →
    List (Str × DocResult)
  | .ok (rs, _) => rs
  | .error _ => []

/-- The per-file result that a successfully dispatched `process_document`
call produces, as a function of that file's own path and service outcome
alone (used to state per-file independence of the batch loop). -/
def docResultOf (svc : ServiceOutcome) (fmt : OutputFormat) (p : FPath) : DocResult :=
  match svc with
  | .sdkError m => .error ("Mistral API error: ".data ++ m)
  | .otherError m => .error ("error while processing the document: ".data ++ m)
  | .ok resp =>
    match fmt with
    | .json => .jsonResult (responseToJson resp)
    | .markdown => .content (get_combined_markdown resp) (some (save_markdown_path p))
    | .text => .content (text_mode_output resp) none

/-- The writes that a successfully dispatched `process_document` call
performs. -/
def docWrites (svc : ServiceOutcome) (fmt : OutputFormat) (p : FPath) : Writes :=
  match svc, fmt with
  | .ok resp, .markdown =>
    [(save_markdown_path p, .textData (get_combined_markdown resp))]
  | _, _ => []

/-! ### Concrete sample inputs used by the witnesses -/

/-- Sample page 1: its markdown contains the bracket pattern `![x](x)` but
its own image map is empty. -/
def pg1 : OCRPage := ⟨0, "intro ![x](x) end".data, "intro".data, []⟩

/-- Sample page 2 without any embedded image. -/
def pg2a : OCRPage := ⟨1, "pic ![x](x)".data, "pic".data, []⟩

/-- Sample page 2 carrying an image whose id `x` collides with the bracket
pattern of page 1. -/
def pg2b : OCRPage := ⟨1, "pic ![x](x)".data, "pic".data, [⟨"x".data, "AAAA".data⟩]⟩

/-- Sample one-page response with one embedded image. -/
def resp4 : OCRResponse :=
  ⟨[⟨0, "md ![a](a)".data, "plain".data, [⟨"a".data, "B64".data⟩]⟩]⟩

/-- Sample input path with a supported extension. -/
def p4 : FPath := ⟨"/docs".data, "scan.pdf".data⟩

/-- Sample response with page texts `["A", ""]`. -/
def resp5 : OCRResponse := ⟨[⟨0, "A".data, "A".data, []⟩, ⟨1, [], [], []⟩]⟩

/-- Sample one-page response for the markdown side-effect witness. -/
def resp6 : OCRResponse := ⟨[⟨0, "hello".data, "hello".data, []⟩]⟩

/-- Sample page with an empty image list. -/
def page9 : OCRPage := ⟨1, "plain text page".data, "plain text page".data, []⟩

/-- Sample directory listing with no supported document: an unsupported
extension, a directory whose name merely looks like a PDF, and a file
without any extension. -/
def entries10 : List DirEntry :=
  [⟨"notes.docx".data, true⟩, ⟨"images.PDF".data, false⟩, ⟨"readme".data, true⟩]

/-! ### Lemmas about substring matching and `listReplace` -/

theorem hasMatch_nil_left (s : Str) : hasMatch [] s = true := by
  cases s <;> simp [hasMatch]

theorem le_length_of_take_eq {l pat : Str} (h : l.take pat.length = pat) :
    pat.length ≤ l.length := by
  have h2 := congrArg List.length h
  simp only [List.length_take] at h2
  omega

theorem hasMatch_append {pat a : Str} (b : Str) (h : hasMatch pat a = true) :
    hasMatch pat (a ++ b) = true := by
  induction a with
  | nil =>
    have hpat : pat = [] := by
      simpa [hasMatch, List.isEmpty_iff] using h
    subst hpat
    simpa using hasMatch_nil_left b
  | cons c a' ih =>
    simp only [hasMatch, Bool.or_eq_true, beq_iff_eq] at h ⊢
    rcases h with h | h
    · left
      have hle := le_length_of_take_eq h
      calc (c :: (a' ++ b)).take pat.length
          = ((c :: a') ++ b).take pat.length := by simp
        _ = (c :: a').take pat.length := List.take_append_of_le_length hle
        _ = pat := h
    · exact Or.inr (ih h)

theorem listReplace_of_no_match {pat s : Str} (rep : Str) (h : hasMatch pat s = false) :
    listReplace s pat rep = s := by
  induction s with
  | nil => simp [listReplace]
  | cons c rest ih =>
    simp only [hasMatch, Bool.or_eq_false_iff, beq_eq_false_iff_ne] at h
    rw [listReplace, dif_neg (fun hc => h.1 hc.2)]
    rw [ih h.2]

theorem dropLast_cons_ne {l : Str} (c : Char) (h : l ≠ []) :
    (c :: l).dropLast = c :: l.dropLast := by
  cases l with
  | nil => exact absurd rfl h
  | cons z zs => rfl

theorem listReplace_leftmost {pat : Str} (rep x y : Str) (hp : pat ≠ [])
    (hx : hasMatch pat ((x ++ pat).dropLast) = false) :
    listReplace (x ++ pat ++ y) pat rep = x ++ rep ++ listReplace y pat rep := by
  induction x with
  | nil =>
    obtain ⟨p, pt, rfl⟩ : ∃ p pt, pat = p :: pt := by
      cases pat with
      | nil => exact absurd rfl hp
      | cons p pt => exact ⟨p, pt, rfl⟩
    have htake : ((p :: pt) ++ y).take (p :: pt).length = p :: pt := by
      rw [List.take_append_of_le_length (Nat.le_refl _), List.take_length]
    have hdrop : ((p :: pt) ++ y).drop (p :: pt).length = y := List.drop_left _ _
    simp only [List.nil_append, List.cons_append] at htake hdrop ⊢
    rw [listReplace, dif_pos ⟨hp, htake⟩, hdrop]
  | cons c x' ih =>
    have hne : x' ++ pat ≠ [] := by
      cases pat with
      | nil => exact absurd rfl hp
      | cons p pt => simp
    have hx' : hasMatch pat (c :: (x' ++ pat).dropLast) = false := by
      have hdl : ((c :: x') ++ pat).dropLast = c :: (x' ++ pat).dropLast := by
        rw [List.cons_append, dropLast_cons_ne c hne]
      rw [hdl] at hx
      exact hx
    simp only [hasMatch, Bool.or_eq_false_iff, beq_eq_false_iff_ne] at hx'
    obtain ⟨hhead, htail⟩ := hx'
    have hulen : pat.length ≤ (c :: (x' ++ pat)).length - 1 := by
      simp [List.length_append]
    have htke : (c :: (x' ++ (pat ++ y))).take pat.length =
        (c :: (x' ++ pat).dropLast).take pat.length := by
      have e1 : c :: (x' ++ pat).dropLast = (c :: (x' ++ pat)).dropLast :=
        (dropLast_cons_ne c hne).symm
      have e2 : (c :: (x' ++ (pat ++ y))) = (c :: (x' ++ pat)) ++ y := by simp
      rw [e1, e2, List.dropLast_eq_take,
        List.take_append_of_le_length (Nat.le_trans hulen (Nat.sub_le _ _)),
        List.take_take, Nat.min_eq_left hulen]
    have hcond : ¬((pat ≠ []) ∧ (c :: (x' ++ (pat ++ y))).take pat.length = pat) := by
      intro hc
      exact hhead (htke ▸ hc.2)
    have goal1 : listReplace (c :: (x' ++ (pat ++ y))) pat rep =
        c :: listReplace (x' ++ (pat ++ y)) pat rep := by
      rw [listReplace, dif_neg hcond]
    have ih2 := ih htail
    simp only [List.cons_append, List.append_assoc] at ih2 ⊢
    rw [goal1, ih2]

theorem hasMatch_false_of_safe {pat c : Str} (hp : pat ≠ [])
    (h : hasMatch pat ((c ++ pat).dropLast) = false) : hasMatch pat c = false := by
  by_contra hcon
  rw [Bool.not_eq_false] at hcon
  have h2 := hasMatch_append pat.dropLast hcon
  rw [List.dropLast_append_of_ne_nil c hp] at h
  rw [h] at h2
  exact Bool.false_ne_true h2

theorem listReplace_joinSep {pat : Str} (rep : Str) (hp : pat ≠ []) :
    ∀ chunks : List Str,
    (∀ c ∈ chunks, hasMatch pat ((c ++ pat).dropLast) = false) →
    listReplace (joinSep pat chunks) pat rep = joinSep rep chunks
  | [], _ => by simp [joinSep, listReplace]
  | [x], hs => by
    simp only [joinSep]
    exact listReplace_of_no_match rep (hasMatch_false_of_safe hp (hs x (by simp)))
  | x :: y :: rest, hs => by
    simp only [joinSep]
    have hrw := listReplace_leftmost rep x (joinSep pat (y :: rest)) hp (hs x (by simp))
    simp only [List.append_assoc] at hrw ⊢
    rw [hrw, listReplace_joinSep rep hp (y :: rest) (fun c hc => hs c (by simp [hc]))]

theorem imgPlaceholder_ne_nil (id : Str) : imgPlaceholder id ≠ [] := by
  simp [imgPlaceholder]

theorem replace_images_single (m id data : Str) :
    replace_images_in_markdown m [(id, data)] =
      listReplace m (imgPlaceholder id) (imgInline id data) := rfl

theorem replace_images_id {m : Str} {dict : List (Str × Str)}
    (h : ∀ kv ∈ dict, hasMatch (imgPlaceholder kv.1) m = false) :
    replace_images_in_markdown m dict = m := by
  induction dict with
  | nil => rfl
  | cons kv d ih =>
    unfold replace_images_in_markdown at ih ⊢
    rw [List.foldl_cons, listReplace_of_no_match _ (h kv (by simp))]
    exact ih (fun kv' h' => h kv' (by simp [h']))

/-! ### Lemmas about joining and separator counting -/

theorem nl2_eq : nl2 = ['\n', '\n'] := rfl

theorem joinSep_eq_specJoin (sep : Str) : ∀ l : List Str, joinSep sep l = specJoin sep l
  | [] => rfl
  | [x] => by simp [joinSep, specJoin]
  | x :: y :: rest => by
    have ih := joinSep_eq_specJoin sep (y :: rest)
    simp only [joinSep, specJoin] at ih ⊢
    rw [ih]
    simp

theorem countOcc_append_no_nl {x : Str} (t : Str) (h : '\n' ∉ x) :
    countOcc nl2 (x ++ t) = countOcc nl2 t := by
  induction x with
  | nil => rfl
  | cons c x' ih =>
    have hc : c ≠ '\n' := fun he => h (by simp [he])
    have h' : '\n' ∉ x' := fun hm => h (by simp [hm])
    have hcond : ¬((nl2 ≠ []) ∧ (c :: (x' ++ t)).take nl2.length = nl2) := by
      intro hcd
      have h2 := hcd.2
      rw [nl2_eq] at h2
      simp only [List.length_cons, List.length_nil, List.take_succ_cons,
        List.cons.injEq] at h2
      exact hc h2.1
    simp only [List.cons_append]
    rw [countOcc, dif_neg hcond]
    exact ih h'

theorem countOcc_nl2_self (t : Str) : countOcc nl2 (nl2 ++ t) = 1 + countOcc nl2 t := by
  rw [nl2_eq]
  simp only [List.cons_append, List.nil_append]
  rw [countOcc, dif_pos ⟨by simp, by simp⟩]
  simp

theorem countOcc_nil (pat : Str) : countOcc pat [] = 0 := by
  simp [countOcc]

theorem countOcc_joinSep : ∀ l : List Str, (∀ x ∈ l, '\n' ∉ x) →
    countOcc nl2 (joinSep nl2 l) = l.length - 1
  | [], _ => by simp [joinSep, countOcc_nil]
  | [x], h => by
    simp only [joinSep]
    have h0 := countOcc_append_no_nl ([] : Str) (h x (by simp))
    simpa [countOcc_nil] using h0
  | x :: y :: rest, h => by
    simp only [joinSep, List.append_assoc]
    rw [countOcc_append_no_nl _ (h x (by simp)), countOcc_nl2_self,
      countOcc_joinSep (y :: rest) (fun z hz => h z (by simp [hz]))]
    simp only [List.length_cons]
    omega

/-! ### Lemmas about `pathlib` stem and suffix manipulation -/

theorem splitLastDot_none {b : Str} (h : '.' ∉ b) : splitLastDot b = none := by
  induction b with
  | nil => rfl
  | cons c r ih =>
    have hc : c ≠ '.' := fun he => h (by simp [he])
    have hr : '.' ∉ r := fun hm => h (by simp [hm])
    simp [splitLastDot, ih hr, hc]

theorem splitLastDot_append {b : Str} (a : Str) (h : '.' ∉ b) :
    splitLastDot (a ++ '.' :: b) = some (a, b) := by
  induction a with
  | nil => simp [splitLastDot, splitLastDot_none h]
  | cons c a' ih => simp [splitLastDot, ih]

theorem pySuffix_eq {st ext : Str} (hst : st ≠ []) (hext : ext ≠ []) (hdot : '.' ∉ ext) :
    pySuffix (st ++ '.' :: ext) = '.' :: ext := by
  simp [pySuffix, splitLastDot_append st hdot, hst, hext]

theorem pyStem_eq {st ext : Str} (hst : st ≠ []) (hext : ext ≠ []) (hdot : '.' ∉ ext) :
    pyStem (st ++ '.' :: ext) = st := by
  simp [pyStem, splitLastDot_append st hdot, hst, hext]

theorem save_markdown_path_eq {st ext : Str} (dir : Str) (hst : st ≠ [])
    (hext : ext ≠ []) (hdot : '.' ∉ ext) :
    save_markdown_path ⟨dir, st ++ '.' :: ext⟩ = ⟨dir, st ++ "_OCR.md".data⟩ := by
  have hstem := pyStem_eq hst hext hdot
  have hsfx := pySuffix_eq hst hext hdot
  have hst2 : st ++ "_OCR".data ≠ [] := by
    cases st with
    | nil => exact absurd rfl hst
    | cons c cs => simp
  unfold save_markdown_path withStem withSuffix
  simp only [hstem, hsfx]
  have hstem2 : pyStem ((st ++ "_OCR".data) ++ '.' :: ext) = st ++ "_OCR".data :=
    pyStem_eq hst2 hext hdot
  simp only [List.append_assoc] at hstem2 ⊢
  rw [hstem2]
  simp

/-! ### Lemmas about the JSON round trip -/

theorem jsonToImage_imageToJson (img : OCRImage) :
    jsonToImage (imageToJson img) = some img := by
  simp [jsonToImage, imageToJson]

theorem optMapList_roundtrip {β : Type} {g : Json → Option β} {f : β → Json}
    (hg : ∀ x, g (f x) = some x) : ∀ xs : List β, optMapList g (xs.map f) = some xs
  | [] => rfl
  | x :: xs => by
    simp [optMapList, hg x, optMapList_roundtrip hg xs]

theorem jsonToPage_pageToJson (pg : OCRPage) :
    jsonToPage (pageToJson pg) = some pg := by
  simp [jsonToPage, pageToJson,
    optMapList_roundtrip jsonToImage_imageToJson pg.images]

theorem jsonToResponse_roundtrip (resp : OCRResponse) :
    jsonToResponse (responseToJson resp) = some resp := by
  simp [jsonToResponse, responseToJson,
    optMapList_roundtrip jsonToPage_pageToJson resp.pages]

/-! ### Lemmas about the per-file and batch processing flow -/

theorem process_document_ok {p : FPath}
    (hsupp : supportedExts.contains (lowerStr (pySuffix p.name)) = true)
    (svc : ServiceOutcome) (fmt : OutputFormat) :
    process_document true p svc fmt = .ok (docResultOf svc fmt p, docWrites svc fmt p) := by
  unfold process_document docResultOf docWrites
  rw [hsupp]
  cases svc with
  | sdkError m => simp
  | otherError m => simp
  | ok resp => cases fmt <;> simp

theorem processEntries_ok (dirPath : Str) (svc : Str → ServiceOutcome)
    (outDir : Option Str) (fmt : OutputFormat) :
    ∀ l : List DirEntry, (∀ e ∈ l, supportedEntry e = true) →
    isOkE (processEntries dirPath svc outDir fmt l) = true ∧
    batchResults (processEntries dirPath svc outDir fmt l) =
      l.map (fun e => (e.name, docResultOf (svc e.name) fmt ⟨dirPath, e.name⟩))
  | [], _ => by simp [processEntries, isOkE, batchResults]
  | e :: rest, h => by
    have hsupp : supportedExts.contains (lowerStr (pySuffix e.name)) = true := by
      have he := h e (by simp)
      simp only [supportedEntry, Bool.and_eq_true] at he
      exact he.2
    have hpd := process_document_ok (p := ⟨dirPath, e.name⟩) hsupp (svc e.name) fmt
    have hih := processEntries_ok dirPath svc outDir fmt rest
      (fun e' he' => h e' (by simp [he']))
    simp only [processEntries]
    rw [hpd]
    rcases hrec : processEntries dirPath svc outDir fmt rest with err | pr
    · rw [hrec] at hih
      simp [isOkE] at hih
    · obtain ⟨rs, ws2⟩ := pr
      rw [hrec] at hih
      simp only [isOkE, batchResults, List.map_cons] at hih ⊢
      exact ⟨trivial, by rw [hih.2]⟩

/-! ### The claims -/

/-- C1: in markdown mode, for an id present in the page's image map every
occurrence of the exact substring `![id](id)` in the page's markdown is
replaced by `![id](data)` (the markdown is presented as its chunks between
the occurrences; the safety hypothesis states that no further, overlapping
occurrence starts inside a chunk), and a markdown string in which no
mapped id's bracket pattern occurs at all is left completely unchanged —
replacement is literal substring substitution. -/
theorem claim1_image_replacement (id data : Str) (chunks : List Str)
    (hsafe : ∀ c ∈ chunks,
      hasMatch (imgPlaceholder id) ((c ++ imgPlaceholder id).dropLast) = false) :
    replace_images_in_markdown (joinSep (imgPlaceholder id) chunks) [(id, data)] =
      joinSep (imgInline id data) chunks ∧
    ∀ (m : Str) (dict : List (Str × Str)),
      (∀ kv ∈ dict, hasMatch (imgPlaceholder kv.1) m = false) →
      replace_images_in_markdown m dict = m := by
  constructor
  · rw [replace_images_single]
    exact listReplace_joinSep _ (imgPlaceholder_ne_nil id) chunks hsafe
  · intro m dict h
    exact replace_images_id h

/-- Witness for C1: the spec's concrete example `"see ![x](x) here"` with
image map `{x: "data:image/png;base64,iVBOR"}`, and an absent-id example
that is left unchanged. -/
theorem claim1_witness :
    replace_images_in_markdown "see ![x](x) here".data
        [("x".data, "data:image/png;base64,iVBOR".data)] =
      "see ![x](data:image/png;base64,iVBOR) here".data ∧
    replace_images_in_markdown "see ![y](y) here".data
        [("x".data, "data:image/png;base64,iVBOR".data)] =
      "see ![y](y) here".data := by
  have h := claim1_image_replacement "x".data "data:image/png;base64,iVBOR".data
    ["see ".data, " here".data] (by decide)
  refine ⟨?_, h.2 "see ![y](y) here".data _ (by decide)⟩
  have e1 : joinSep (imgPlaceholder "x".data) ["see ".data, " here".data] =
      "see ![x](x) here".data := by decide
  have e2 : joinSep (imgInline "x".data "data:image/png;base64,iVBOR".data)
      ["see ".data, " here".data] =
      "see ![x](data:image/png;base64,iVBOR) here".data := by decide
  rw [← e1, ← e2]
  exact h.1

/-- C2: image replacement is scoped per page — two responses whose page
lists agree everywhere except at position j (where only page j itself, in
particular its image list, may differ) produce identical transformed
markdown for every page position other than j. -/
theorem claim2_per_page_scoping (pre post : List OCRPage) (a b : OCRPage) (i : Nat)
    (hi : i ≠ pre.length) :
    ((pre ++ a :: post).map transformPage)[i]? =
      ((pre ++ b :: post).map transformPage)[i]? := by
  rcases Nat.lt_or_ge i pre.length with hlt | hge
  · rw [List.map_append, List.map_append,
      List.getElem?_append_left (by simpa using hlt),
      List.getElem?_append_left (by simpa using hlt)]
  · have hgt : pre.length < i := Nat.lt_of_le_of_ne hge (fun he => hi he.symm)
    rw [List.map_append, List.map_append,
      List.getElem?_append_right (by simp; omega),
      List.getElem?_append_right (by simp; omega)]
    simp only [List.map_cons, List.length_map]
    have hk : ∃ k, i - pre.length = k + 1 := ⟨i - pre.length - 1, by omega⟩
    obtain ⟨k, hk⟩ := hk
    rw [hk]
    simp

/-- Witness for C2: the id `x` present only in page 2's image map does not
affect the identical bracket pattern occurring in page 1's markdown. -/
theorem claim2_witness :
    (([pg1, pg2a].map transformPage)[0]? = ([pg1, pg2b].map transformPage)[0]?) ∧
    ([pg1, pg2b].map transformPage)[0]? = some "intro ![x](x) end".data := by
  refine ⟨claim2_per_page_scoping [pg1] [] pg2a pg2b 0 (by decide), ?_⟩
  decide

/-- C3: the assembled markdown output equals each page's transformed
markdown joined with exactly one blank-line separator before every
non-first segment, with one segment per page in response order (no page
reordered, dropped, or duplicated). -/
theorem claim3_combined_markdown_join (resp : OCRResponse) :
    get_combined_markdown resp = specJoin nl2 (resp.pages.map transformPage) ∧
    (resp.pages.map transformPage).length = resp.pages.length := by
  exact ⟨joinSep_eq_specJoin nl2 _, by simp⟩

/-- C5: text-mode output is the pages' plain-text fields joined in page
order with one blank line between consecutive texts (an empty text still
contributes its empty segment), and when no page text itself contains a
newline the output contains exactly N-1 blank-line separators. -/
theorem claim5_text_mode (resp : OCRResponse) :
    text_mode_output resp = specJoin nl2 (resp.pages.map OCRPage.text) ∧
    ((∀ pg ∈ resp.pages, '\n' ∉ pg.text) →
      countOcc nl2 (text_mode_output resp) = resp.pages.length - 1) := by
  constructor
  · exact joinSep_eq_specJoin nl2 _
  · intro h
    unfold text_mode_output
    rw [countOcc_joinSep _ (by
      intro x hx
      rcases List.mem_map.mp hx with ⟨pg, hpg, rfl⟩
      exact h pg hpg)]
    simp

/-- Witness for C5: page texts `["A", ""]` yield the output `"A\n\n"`,
with exactly one blank-line separator. -/
theorem claim5_witness :
    countOcc nl2 (text_mode_output resp5) = 1 ∧
    text_mode_output resp5 = "A\n\n".data := by
  have h := (claim5_text_mode resp5).2 (by decide)
  exact ⟨by simpa using h, by decide⟩

/-- C9: a page whose image list is empty is transformed identically — its
markdown string is its segment of the combined markdown output,
character for character. -/
theorem claim9_empty_images_identity (page : OCRPage) (h : page.images = []) :
    transformPage page = page.markdown ∧
    ∀ pre post : List OCRPage,
      ((pre ++ page :: post).map transformPage)[pre.length]? = some page.markdown := by
  have h1 : transformPage page = page.markdown := by
    unfold transformPage buildImageData replace_images_in_markdown
    rw [h]
    rfl
  refine ⟨h1, fun pre post => ?_⟩
  rw [List.map_append, List.map_cons,
    List.getElem?_append_right (by simp)]
  simp [h1]

/-- Witness for C9: a page with no images passes through unchanged as the
second segment of a two-page document. -/
theorem claim9_witness :
    transformPage page9 = "plain text page".data ∧
    ([pg1, page9].map transformPage)[1]? = some "plain text page".data := by
  have h := claim9_empty_images_identity page9 rfl
  exact ⟨h.1, h.2 [pg1] []⟩

/-- C4: in json mode the caller receives the raw structured response
re-encoded without any field filtering or modification (and no file is
written by `process_document` itself), and decoding that output
reproduces exactly the structured fields of the original response. -/
theorem claim4_json_passthrough (resp : OCRResponse) (p : FPath)
    (hsupp : supportedExts.contains (lowerStr (pySuffix p.name)) = true) :
    process_document true p (.ok resp) .json =
      .ok (.jsonResult (responseToJson resp), []) ∧
    jsonToResponse (responseToJson resp) = some resp := by
  refine ⟨?_, jsonToResponse_roundtrip resp⟩
  have h := process_document_ok hsupp (.ok resp) .json
  simpa [docResultOf, docWrites] using h

/-- Witness for C4: the round trip and the passthrough at a concrete
one-page, one-image response. -/
theorem claim4_witness :
    process_document true p4 (.ok resp4) .json =
      .ok (.jsonResult (responseToJson resp4), []) ∧
    jsonToResponse (responseToJson resp4) = some resp4 :=
  claim4_json_passthrough resp4 p4 (by decide)

/-- C6: whenever markdown-mode assembly succeeds, the combined markdown is
unconditionally written to the sibling file `<basename>_OCR.md` in the
source document's own directory, and the returned result records that
file's path. -/
theorem claim6_markdown_sibling_file (dir st ext : Str) (resp : OCRResponse)
    (hst : st ≠ []) (hext : ext ≠ []) (hdot : '.' ∉ ext)
    (hsupp : supportedExts.contains (lowerStr ('.' :: ext)) = true) :
    process_document true ⟨dir, st ++ '.' :: ext⟩ (.ok resp) .markdown =
      .ok (.content (get_combined_markdown resp) (some ⟨dir, st ++ "_OCR.md".data⟩),
        [(⟨dir, st ++ "_OCR.md".data⟩, .textData (get_combined_markdown resp))]) := by
  have hpath := save_markdown_path_eq dir hst hext hdot
  have hsfx := pySuffix_eq hst hext hdot
  unfold process_document
  dsimp only
  rw [hsfx, hsupp]
  simp [hpath]

/-- Witness for C6: processing `/docs/report.pdf` in markdown mode writes
the combined markdown to the sibling `/docs/report_OCR.md` and records
that path in the result. -/
theorem claim6_witness :
    process_document true ⟨"/docs".data, "report.pdf".data⟩ (.ok resp6) .markdown =
      .ok (.content (get_combined_markdown resp6)
             (some ⟨"/docs".data, "report_OCR.md".data⟩),
        [(⟨"/docs".data, "report_OCR.md".data⟩,
          .textData (get_combined_markdown resp6))]) := by
  have h := claim6_markdown_sibling_file "/docs".data "report".data "pdf".data resp6
    (by decide) (by decide) (by decide) (by decide)
  exact h

/-- C7 counterexample: a missing input file is NOT converted into an
error-carrying result object — `process_document` raises the
`FileNotFoundError` to its caller (the `raise` sits before the `try`
block in the source), refuting the claim that no single-file failure is
raised as an exception. -/
theorem claim7_counterexample :
    process_document false ⟨"/docs".data, "missing.pdf".data⟩
      (.ok ⟨[]⟩) .markdown = .error .fileNotFound := rfl

/-- C7 as amended: failures of the service call itself are caught and
returned as a result object carrying a human-readable error description,
with no file written and no exception; but a missing input file or an
unsupported extension is raised as an exception (`FileNotFoundError` /
`ValueError`) to the caller of `process_document`, before any service
call or file write. -/
theorem claim7_error_handling (p : FPath) (svc : ServiceOutcome)
    (fmt : OutputFormat) (m : Str)
    (hsupp : supportedExts.contains (lowerStr (pySuffix p.name)) = true) :
    process_document true p (.sdkError m) fmt =
      .ok (.error ("Mistral API error: ".data ++ m), []) ∧
    process_document true p (.otherError m) fmt =
      .ok (.error ("error while processing the document: ".data ++ m), []) ∧
    process_document false p svc fmt = .error .fileNotFound ∧
    (∀ q : FPath, supportedExts.contains (lowerStr (pySuffix q.name)) = false →
      process_document true q svc fmt = .error .valueError) := by
  refine ⟨?_, ?_, rfl, ?_⟩
  · unfold process_document
    dsimp only
    rw [hsupp]
    simp
  · unfold process_document
    dsimp only
    rw [hsupp]
    simp
  · intro q hq
    unfold process_document
    dsimp only
    rw [hq]
    simp

/-- Witness for C7 as amended: a concrete service error produces an error
result without raising, a missing file and a `.gif` file raise. -/
theorem claim7_witness :
    process_document true p4 (.sdkError "boom".data) .markdown =
      .ok (.error ("Mistral API error: boom".data), []) ∧
    process_document false p4 (.sdkError "boom".data) .markdown =
      .error .fileNotFound ∧
    process_document true ⟨"/docs".data, "anim.gif".data⟩
      (.sdkError "boom".data) .markdown = .error .valueError := by
  have h := claim7_error_handling p4 (.sdkError "boom".data) .markdown "boom".data
    (by decide)
  refine ⟨?_, h.2.2.1, h.2.2.2 ⟨"/docs".data, "anim.gif".data⟩ (by decide)⟩
  have e : ("Mistral API error: ".data : Str) ++ "boom".data =
      "Mistral API error: boom".data := by decide
  rw [← e]
  exact h.1

/-- C8: directory-batch processing is per-file independent — for every
listing and every assignment of per-file service outcomes, the batch call
returns normally (it never raises) with exactly one result entry per
supported regular file, in listing order, and each file's entry depends
only on that file's own name and service outcome: a failing file yields
an error-message entry while the others still yield their content. -/
theorem claim8_batch_independence (dirPath : Str) (entries : List DirEntry)
    (svc : Str → ServiceOutcome) (outDir : Option Str) (fmt : OutputFormat) :
    isOkE (process_directory true dirPath entries svc outDir fmt) = true ∧
    batchResults (process_directory true dirPath entries svc outDir fmt) =
      (entries.filter supportedEntry).map
        (fun e => (e.name, docResultOf (svc e.name) fmt ⟨dirPath, e.name⟩)) := by
  unfold process_directory
  simp only [if_true]
  exact processEntries_ok dirPath svc outDir fmt (entries.filter supportedEntry)
    (fun e he => (List.mem_filter.mp he).2)

/-- C10: a directory whose listing contains no regular file with a
supported extension (compared case-insensitively) yields the empty result
list, raises nothing, and writes nothing. -/
theorem claim10_no_supported_files (dirPath : Str) (entries : List DirEntry)
    (svc : Str → ServiceOutcome) (outDir : Option Str) (fmt : OutputFormat)
    (h : ∀ e ∈ entries, supportedEntry e = false) :
    process_directory true dirPath entries svc outDir fmt = .ok ([], []) := by
  unfold process_directory
  have hf : entries.filter supportedEntry = [] :=
    List.filter_eq_nil_iff.mpr (by
      intro a ha
      simp [h a ha])
  rw [if_pos rfl, hf]
  rfl

/-- Witness for C10: a listing with an unsupported extension, a directory
whose name merely ends in `.PDF`, and an extensionless file produces the
empty batch result with no writes. -/
theorem claim10_witness :
    process_directory true "/in".data entries10
      (fun _ => ServiceOutcome.sdkError []) none .markdown = .ok ([], []) :=
  claim10_no_supported_files "/in".data entries10
    (fun _ => ServiceOutcome.sdkError []) none .markdown (by decide)

end MistralPdfOcr
